import Mathlib

/-!
Verification development for the `s3_debug.py` URL-debugging tool.

The development shallowly embeds the tool's code: the URL resolver
`extract_bucket_and_key` (including a model of Python 3.12's
`urllib.parse.urlparse(...).path`), and the six diagnostic probes together
with the orchestrator `debug_s3_access`, modelled as functions from an
abstract S3 environment to the list of remote calls issued and the console
messages produced.

Strings are handled through their underlying character lists; every
definition is executable.
-/

namespace S3Debug

/-- Python `sub in s` on character lists: true iff `sub` occurs as a
contiguous substring of `s`. -/
def containsSub (sub : List Char) : List Char → Bool
  | [] => sub.isEmpty
  | c :: cs => sub.isPrefixOf (c :: cs) || containsSub sub cs

/-- Python `sub in s` over strings (substring membership test). -/
def strContainsSub (s sub : String) : Bool := containsSub sub.data s.data

/-- The part of `s` strictly before the first occurrence of `sep`
(the whole of `s` when `sep` does not occur).  Models Python
`s.split(sep)[0]`. -/
def beforeFirst (sep : List Char) : List Char → List Char
  | [] => []
  | c :: cs => if sep.isPrefixOf (c :: cs) then [] else c :: beforeFirst sep cs

/-- Fueled scanner computing the last field of Python `s.split(sep)`
(left-to-right, non-overlapping occurrences).  The fuel only needs to be
at least the length of the scanned list. -/
def lastPartF (sep : List Char) : Nat → List Char → List Char
  | _, [] => []
  | 0, s => s
  | n + 1, c :: cs =>
    if sep.isPrefixOf (c :: cs) then lastPartF sep n (cs.drop (sep.length - 1))
    else if containsSub sep cs then lastPartF sep n cs
    else c :: cs

/-- Models Python `s.split(sep)[-1]`. -/
def lastPart (sep s : List Char) : List Char := lastPartF sep s.length s

/-- Python `s.split('/')` (single-character separator, no maxsplit).
The result is always non-empty, so extending its first field with a
non-separator character is done through `headD`/`tail`. -/
def splitSlash : List Char → List (List Char)
  | [] => [[]]
  | c :: cs =>
    if c = '/' then [] :: splitSlash cs
    else (c :: (splitSlash cs).headD []) :: (splitSlash cs).tail

/-- Python `'/'.join(parts)`. -/
def joinSlash (parts : List (List Char)) : List Char :=
  (parts.intersperse ['/']).flatten

/-- Python `s.split(x, 1)` for a single-character separator `x`
(maxsplit 1: at most two fields). -/
def splitOnce (x : Char) (s : List Char) : List (List Char) :=
  match s.dropWhile (fun c => c ≠ x) with
  | [] => [s]
  | _ :: tail => [s.takeWhile (fun c => c ≠ x), tail]

/-- First index of the character `x` in the list, if any.  Models Python
`s.find(x)` (with `none` for -1). -/
def findCharIdx (x : Char) : List Char → Option Nat
  | [] => none
  | c :: cs => if c = x then some 0 else (findCharIdx x cs).map (· + 1)

/-! Model of Python 3.12 `urllib.parse.urlparse(url)`, restricted to the
components the tool reads (`netloc` and `path`). -/

/-- WHATWG C0-control-or-space test used by `urlsplit`'s initial strip. -/
def c0OrSpace (c : Char) : Bool := c.toNat ≤ 32

/-- The leading strip of C0 controls and spaces performed by `urlsplit`
(only the left side is stripped; trailing characters are preserved). -/
def stripC0 (s : List Char) : List Char := s.dropWhile c0OrSpace

/-- Removal of the unsafe bytes tab, carriage return and newline performed
by `urlsplit`. -/
def removeUnsafe (s : List Char) : List Char :=
  s.filter (fun c => !(c = '\t' || c = '\r' || c = '\n'))

/-- Characters allowed in a URL scheme, as in `urllib.parse.scheme_chars`. -/
def schemeChars : List Char :=
  "abcdefghijklmnopqrstuvwxyzABCDEFGHIJKLMNOPQRSTUVWXYZ0123456789+-.".data

/-- Scheme extraction step of `urlsplit`: returns the (lowercased) scheme
and the remainder of the URL.  The scheme is recognised only when a colon
occurs at a positive index, the first character is an ASCII letter, and
every character before the colon is a scheme character. -/
def splitSchemeL (url : List Char) : List Char × List Char :=
  match findCharIdx ':' url with
  | none => ([], url)
  | some i =>
    if 0 < i ∧ (url.headD ' ').isAlpha ∧ (url.take i).all (fun c => c ∈ schemeChars) then
      ((url.take i).map Char.toLower, url.drop (i + 1))
    else ([], url)

/-- Netloc extraction step of `urlsplit` (`_splitnetloc`): when the
remainder begins with `//`, the netloc runs up to the first `/`, `?` or
`#`; the rest (including that delimiter) is returned alongside. -/
def splitNetlocL (url : List Char) : List Char × List Char :=
  if ['/', '/'].isPrefixOf url then
    let rest := url.drop 2
    (rest.takeWhile (fun c => !(c = '/' || c = '?' || c = '#')),
     rest.dropWhile (fun c => !(c = '/' || c = '?' || c = '#')))
  else ([], url)

/-- Last-segment parameter split of `urlparse` (`_splitparams`): drops a
`;params` suffix from the last `/`-separated segment. -/
def splitParamsL (url : List Char) : List Char :=
  if '/' ∈ url then
    let lastSeg := (url.reverse.takeWhile (fun c => c ≠ '/')).reverse
    let pre := url.take (url.length - lastSeg.length)
    if ';' ∈ lastSeg then pre ++ lastSeg.takeWhile (fun c => c ≠ ';') else url
  else url.takeWhile (fun c => c ≠ ';')

/-- Schemes for which `urlparse` performs the parameter split
(`urllib.parse.uses_params`). -/
def uses_params : List String :=
  ["", "ftp", "hdl", "prospero", "http", "imap", "https", "shttp", "rtsp",
   "rtsps", "rtspu", "sip", "sips", "mms", "sftp", "tel"]

/-- The `path` component of Python `urlparse(url)`: strip controls, remove
unsafe bytes, drop the scheme and netloc, cut fragment and query, and
split parameters off the last segment for param-using schemes. -/
def urlparsePathL (u : List Char) : List Char :=
  let u1 := removeUnsafe (stripC0 u)
  let sp := splitSchemeL u1
  let nl := splitNetlocL sp.2
  let noFrag := nl.2.takeWhile (fun c => c ≠ '#')
  let noQuery := noFrag.takeWhile (fun c => c ≠ '?')
  if (String.mk sp.1) ∈ uses_params ∧ ';' ∈ noQuery then splitParamsL noQuery
  else noQuery

/-- The `netloc` component of Python `urlparse(url)`. -/
def urlparseNetlocL (u : List Char) : List Char :=
  (splitNetlocL (splitSchemeL (removeUnsafe (stripC0 u))).2).1

/-- String-level wrapper: `urlparse(url).path`. -/
def urlparse_path (url : String) : String := ⟨urlparsePathL url.data⟩

/-- String-level wrapper: `urlparse(url).netloc` (the URL's host part). -/
def urlparse_netloc (url : String) : String := ⟨urlparseNetlocL url.data⟩

/-- The URL resolver `extract_bucket_and_key` of `s3_debug.py`:
if `'.s3.' in url` then
`bucket = url.split('.s3.')[0].split('/')[-1]` and
`key = '/'.join(url.split('.amazonaws.com/')[-1].split('/'))`;
otherwise `parts = urlparse(url).path.lstrip('/').split('/', 1)` with
`bucket = parts[0]` and `key = parts[1] if len(parts) > 1 else ''`. -/
def extract_bucket_and_key (url : String) : String × String :=
  if containsSub ".s3.".data url.data then
    let bucket := lastPart ['/'] (beforeFirst ".s3.".data url.data)
    let key := joinSlash (splitSlash (lastPart ".amazonaws.com/".data url.data))
    (⟨bucket⟩, ⟨key⟩)
  else
    let parts := splitOnce '/' ((urlparse_path url).data.dropWhile (fun c => c = '/'))
    (⟨parts.headD []⟩, ⟨if parts.length > 1 then parts.getD 1 [] else []⟩)

/-! Model of the probe sequence.  Remote S3 behaviour is abstracted as an
environment assigning to every remote call (identified by the operation,
the region the client is bound to, and its arguments) either a success
payload or a `ClientError`.  Each probe returns the list of remote calls
it issued and the console messages it printed, mirroring the Python
functions line by line. -/

/-- The six remote operations issued by the tool. -/
inductive S3Op
  | headBucket
  | getBucketLocation
  | headObject
  | listObjectsV2
  | getBucketPolicy
  | getBucketAcl
deriving DecidableEq, Repr

/-- One remote call: the operation, the region the issuing client is bound
to (`none` when no region was configured), the bucket, and the extra
argument (the key for `headObject`, the listing prefix for
`listObjectsV2`, empty otherwise). -/
structure Call where
  op : S3Op
  region : Option String
  bucket : String
  arg : String
deriving DecidableEq, Repr

/-- A `botocore` `ClientError`: the error code read from
`e.response['Error']['Code']` and the human-readable text `str(e)`. -/
structure ClientError where
  code : String
  msg : String
deriving DecidableEq, Repr

/-- One object entry of a `list_objects_v2` response (`Key`, `Size`,
`LastModified`). -/
structure S3Object where
  key : String
  size : Int
  lastModified : String
deriving DecidableEq, Repr

/-- One grant of a `get_bucket_acl` response: the optional grantee display
name and the permission level. -/
structure Grant where
  displayName : Option String
  permission : String
deriving DecidableEq, Repr

/-- A console message, tagged with the rich colour used by the tool:
red marks errors, yellow warnings/informational notices, green successes;
`table` is the tabular listing rendering. -/
inductive Msg
  | plain (s : String)
  | bold (s : String)
  | red (s : String)
  | yellow (s : String)
  | green (s : String)
  | table (rows : List (String × String × String))
deriving DecidableEq, Repr

/-- Abstract S3 service behaviour: the response of each remote operation,
as a function of the client's bound region and the call arguments.
`headBucket` returns `none` on success (the tool ignores the payload) and
`some e` when the call raises `ClientError e`.  `getBucketLocation`
returns the `LocationConstraint` field, which may itself be absent/null
(`none`).  `listObjectsV2` returns the optional `Contents` list (`none`
when the response carries no `Contents` key). -/
structure Env where
  headBucket : Option String → String → Option ClientError
  getBucketLocation : Option String → String → Except ClientError (Option String)
  headObject : Option String → String → String → Except ClientError (List (String × String))
  listObjectsV2 : Option String → String → String → Except ClientError (Option (List S3Object))
  getBucketPolicy : Option String → String → Except ClientError String
  getBucketAcl : Option String → String → Except ClientError (List Grant)

/-- Python `location.get('LocationConstraint') or 'us-east-1'`: the
default kicks in when the constraint is null (`none`) or falsy (empty). -/
def pyRegionOr (lc : Option String) : String :=
  match lc with
  | none => "us-east-1"
  | some s => if s = "" then "us-east-1" else s

/-- The listing probe's prefix computation:
`'/'.join(key.split('/')[:-1])`. -/
def keyDir (key : String) : String :=
  ⟨joinSlash ((splitSlash key.data).dropLast)⟩

/-- Model of `check_bucket_exists(s3_client, bucket)`. -/
def check_bucket_exists (env : Env) (client : Option String) (bucket : String) :
    List Call × List Msg × Bool :=
  match env.headBucket client bucket with
  | none => ([⟨S3Op.headBucket, client, bucket, ""⟩], [], true)
  | some e =>
    let m :=
      if e.code = "404" then Msg.red ("Bucket " ++ bucket ++ " does not exist")
      else if e.code = "403" then Msg.yellow ("Access denied to bucket " ++ bucket)
      else
        let t := e.msg
        Msg.red ("Error checking bucket: " ++ t)
    ([⟨S3Op.headBucket, client, bucket, ""⟩], [m], false)

/-- Model of `check_bucket_location(s3_client, bucket)`. -/
def check_bucket_location (env : Env) (client : Option String) (bucket : String) :
    List Call × List Msg × Option String :=
  match env.getBucketLocation client bucket with
  | .ok lc =>
    let region := pyRegionOr lc
    ([⟨S3Op.getBucketLocation, client, bucket, ""⟩],
     [Msg.green ("Bucket region: " ++ region)], some region)
  | .error e =>
    let t := e.msg
    ([⟨S3Op.getBucketLocation, client, bucket, ""⟩],
     [Msg.red ("Error getting bucket location: " ++ t)], none)

/-- Model of `check_object_metadata(s3_client, bucket, key)`. -/
def check_object_metadata (env : Env) (client : Option String) (bucket key : String) :
    List Call × List Msg × Bool :=
  match env.headObject client bucket key with
  | .ok md =>
    ([⟨S3Op.headObject, client, bucket, key⟩],
     Msg.green "Object metadata found:" ::
       (md.filter (fun kv => kv.1 ≠ "ResponseMetadata")).map
         (fun kv =>
           let k := kv.1
           let v := kv.2
           Msg.plain (k ++ ": " ++ v)),
     true)
  | .error e =>
    let t := e.msg
    ([⟨S3Op.headObject, client, bucket, key⟩],
     [Msg.red ("Could not get object metadata: " ++ t)], false)

/-- Model of `list_similar_objects(s3_client, bucket, key)`. -/
def list_similar_objects (env : Env) (client : Option String) (bucket key : String) :
    List Call × List Msg :=
  let pfx := keyDir key
  match env.listObjectsV2 client bucket pfx with
  | .ok (some objs) =>
    ([⟨S3Op.listObjectsV2, client, bucket, pfx⟩],
     [Msg.green "Found similar objects:",
      Msg.table (objs.map (fun o => (o.key, toString o.size, o.lastModified)))])
  | .ok none =>
    ([⟨S3Op.listObjectsV2, client, bucket, pfx⟩],
     [Msg.yellow ("No objects found with prefix: " ++ pfx)])
  | .error e =>
    let t := e.msg
    ([⟨S3Op.listObjectsV2, client, bucket, pfx⟩],
     [Msg.red ("Error listing objects: " ++ t)])

/-- Model of `check_bucket_policy(s3_client, bucket)`. -/
def check_bucket_policy (env : Env) (client : Option String) (bucket : String) :
    List Call × List Msg :=
  match env.getBucketPolicy client bucket with
  | .ok policy =>
    ([⟨S3Op.getBucketPolicy, client, bucket, ""⟩],
     [Msg.green "Bucket policy found:", Msg.plain policy])
  | .error e =>
    if e.code = "NoSuchBucketPolicy" then
      ([⟨S3Op.getBucketPolicy, client, bucket, ""⟩],
       [Msg.yellow "No bucket policy found"])
    else
      let t := e.msg
      ([⟨S3Op.getBucketPolicy, client, bucket, ""⟩],
       [Msg.red ("Error getting bucket policy: " ++ t)])

/-- Model of the bucket-ACL check inlined at the end of
`debug_s3_access` (the final `try: acl = s3_client.get_bucket_acl(...)`
block). -/
def bucket_acl_probe (env : Env) (client : Option String) (bucket : String) :
    List Call × List Msg :=
  match env.getBucketAcl client bucket with
  | .ok acl =>
    ([⟨S3Op.getBucketAcl, client, bucket, ""⟩],
     Msg.green "Bucket ACL:" ::
       (acl.map (fun g =>
         let d := g.displayName.getD "Unknown"
         let p := g.permission
         [Msg.plain ("- Grantee: " ++ d), Msg.plain ("  Permission: " ++ p)])).flatten)
  | .error e =>
    let t := e.msg
    ([⟨S3Op.getBucketAcl, client, bucket, ""⟩],
     [Msg.red ("Error getting bucket ACL: " ++ t)])

/-- Python truthiness-based region-rebind decision of `debug_s3_access`:
`if actual_region and region and actual_region != region:` the client is
rebuilt on the discovered region, else kept. -/
def rebindRegion (actual : Option String) (region : Option String) : Option String :=
  match actual, region with
  | some a, some r => if a ≠ "" ∧ r ≠ "" ∧ a ≠ r then some a else region
  | _, _ => region

/-- The warning emitted when the region-rebind condition fires. -/
def rebindWarning (actual : Option String) (region : Option String) : List Msg :=
  match actual, region with
  | some a, some r =>
    if a ≠ "" ∧ r ≠ "" ∧ a ≠ r then
      [Msg.yellow ("Warning: Specified region " ++ r ++ " differs from bucket region " ++ a)]
    else []
  | _, _ => []

/-- Model of the orchestrator `debug_s3_access(url, profile, region)`:
resolves the URL, prints the header, builds a client bound to the region
hint, and runs the probe sequence; an existence-check failure returns
early.  The result is the list of remote calls issued (in order) and the
console messages printed.  The `profile` argument only feeds session
construction and is otherwise unused, as in the source. -/
def debug_s3_access (env : Env) (url : String) (profile : Option String)
    (region : Option String) : List Call × List Msg :=
  let bk := extract_bucket_and_key url
  let bucket := bk.1
  let key := bk.2
  let header : List Msg :=
    [Msg.bold ("Analyzing URL: " ++ url), Msg.plain ("Bucket: " ++ bucket),
     Msg.plain ("Key: " ++ key)]
  let r1 := check_bucket_exists env region bucket
  if r1.2.2 = true then
    let r2 := check_bucket_location env region bucket
    let client2 := rebindRegion r2.2.2 region
    let r3 := check_object_metadata env client2 bucket key
    let r4 := list_similar_objects env client2 bucket key
    let r5 := check_bucket_policy env client2 bucket
    let r6 := bucket_acl_probe env client2 bucket
    (r1.1 ++ r2.1 ++ r3.1 ++ r4.1 ++ r5.1 ++ r6.1,
     header ++ r1.2.1 ++ r2.2.1 ++ rebindWarning r2.2.2 region ++ r3.2.1 ++
       r4.2 ++ r5.2 ++ r6.2)
  else (r1.1, header ++ r1.2.1)

/-- The full six-call trace of a run that passes the existence check, with
the first two calls on the original client and the remaining four on the
(possibly rebuilt) client. -/
def fullTrace (bucket key : String) (r1 r2 : Option String) : List Call :=
  [⟨S3Op.headBucket, r1, bucket, ""⟩,
   ⟨S3Op.getBucketLocation, r1, bucket, ""⟩,
   ⟨S3Op.headObject, r2, bucket, key⟩,
   ⟨S3Op.listObjectsV2, r2, bucket, keyDir key⟩,
   ⟨S3Op.getBucketPolicy, r2, bucket, ""⟩,
   ⟨S3Op.getBucketAcl, r2, bucket, ""⟩]

/-! Specification-side definitions.  The next group of definitions does
not model the source; it models the specification's own wording, for
claims whose statement differs from what the code computes, together with
auxiliary character predicates and concrete environments used by
witnesses. -/

/-- Everything after the first occurrence of `sub` (specification wording
for the virtual-hosted key: the code instead takes the last field of the
non-overlapping split). -/
def afterFirstOcc (sub : List Char) : List Char → List Char
  | [] => []
  | c :: cs =>
    if sub.isPrefixOf (c :: cs) then (c :: cs).drop sub.length
    else afterFirstOcc sub cs

/-- Specification wording for the virtual-hosted bucket: the host-label
(dot-separated component of the URL's host) immediately preceding the
first `.s3.`. -/
def c2SpecBucket (url : String) : String :=
  ⟨((beforeFirst ".s3.".data (urlparse_netloc url).data).reverse.takeWhile
      (fun c => c ≠ '.')).reverse⟩

/-- Specification wording for the virtual-hosted key: everything after the
first occurrence of `.amazonaws.com/` in the full URL. -/
def c2SpecKey (url : String) : String :=
  ⟨afterFirstOcc ".amazonaws.com/".data url.data⟩

/-- Specification wording for the path-style strip: remove a single
leading slash (the code instead strips all leading slashes). -/
def stripOneSlash : List Char → List Char
  | '/' :: t => t
  | s => s

/-- The path-style resolution as the specification words it for claim C4:
take the parsed path, strip a single leading slash, split on the first
`/` into bucket and optional key. -/
def c4SpecResolve (url : String) : String × String :=
  let p := stripOneSlash (urlparse_path url).data
  (⟨p.takeWhile (fun c => c ≠ '/')⟩,
   ⟨(p.dropWhile (fun c => c ≠ '/')).drop 1⟩)

/-- The path-style resolution with all leading slashes stripped (the
corrected reading of claim C4, equivalent to what the code computes). -/
def pathStyleResolve (url : String) : String × String :=
  let p := (urlparse_path url).data.dropWhile (fun c => c = '/')
  (⟨p.takeWhile (fun c => c ≠ '/')⟩,
   ⟨(p.dropWhile (fun c => c ≠ '/')).drop 1⟩)

/-- URL-plain characters: printable ASCII with the URL-special characters
`?`, `#`, `[`, `]`, `;` excluded.  Hypotheses of the resolver theorems
restrict bucket names and keys to such characters, matching what can
appear un-escaped in the path of a well-formed URL. -/
def plainChar (c : Char) : Bool :=
  decide (32 < c.toNat) && decide (c.toNat < 127) && !(c = '?') && !(c = '#') &&
    !(c = '[') && !(c = ']') && !(c = ';')

/-- Characters of URLs on which the urlparse model is exact: ASCII and
bracket-free (Python raises `ValueError` on bracket or non-ASCII hosts,
which the total model does not represent). -/
def urlSafeChar (c : Char) : Bool :=
  decide (c.toNat < 128) && !(c = '[') && !(c = ']')

/-- Witness environment: every probe reachable, bucket in `eu-west-1`,
no object, no `Contents`, no bucket policy, empty ACL. -/
def env0 : Env where
  headBucket := fun _ _ => none
  getBucketLocation := fun _ _ => Except.ok (some "eu-west-1")
  headObject := fun _ _ _ => Except.error ⟨"404", "not found"⟩
  listObjectsV2 := fun _ _ _ => Except.ok none
  getBucketPolicy := fun _ _ => Except.error ⟨"NoSuchBucketPolicy", "no policy"⟩
  getBucketAcl := fun _ _ => Except.ok []

/-- Witness environment: the existence check is denied. -/
def envDenied : Env :=
  { env0 with headBucket := fun _ _ => some ⟨"403", "denied"⟩ }

/-- Witness environment: the location call succeeds with a null
`LocationConstraint`. -/
def envLocNull : Env :=
  { env0 with getBucketLocation := fun _ _ => Except.ok none }

/-! Theorems.  First the probe-trace lemmas, then the claims about the
probe sequence, then the string lemmas backing the resolver claims. -/

lemma calls_check_bucket_exists (env : Env) (c : Option String) (b : String) :
    (check_bucket_exists env c b).1 = [⟨S3Op.headBucket, c, b, ""⟩] := by
  cases h : env.headBucket c b <;> simp [check_bucket_exists, h]

lemma calls_check_bucket_location (env : Env) (c : Option String) (b : String) :
    (check_bucket_location env c b).1 = [⟨S3Op.getBucketLocation, c, b, ""⟩] := by
  cases h : env.getBucketLocation c b <;> simp [check_bucket_location, h]

lemma calls_check_object_metadata (env : Env) (c : Option String) (b k : String) :
    (check_object_metadata env c b k).1 = [⟨S3Op.headObject, c, b, k⟩] := by
  cases h : env.headObject c b k <;> simp [check_object_metadata, h]

lemma calls_list_similar_objects (env : Env) (c : Option String) (b k : String) :
    (list_similar_objects env c b k).1 = [⟨S3Op.listObjectsV2, c, b, keyDir k⟩] := by
  cases h : env.listObjectsV2 c b (keyDir k) with
  | error e => simp [list_similar_objects, h]
  | ok v => cases v <;> simp [list_similar_objects, h]

lemma calls_check_bucket_policy (env : Env) (c : Option String) (b : String) :
    (check_bucket_policy env c b).1 = [⟨S3Op.getBucketPolicy, c, b, ""⟩] := by
  cases h : env.getBucketPolicy c b with
  | error e => by_cases hc : e.code = "NoSuchBucketPolicy" <;>
      simp [check_bucket_policy, h, hc]
  | ok v => simp [check_bucket_policy, h]

lemma calls_bucket_acl_probe (env : Env) (c : Option String) (b : String) :
    (bucket_acl_probe env c b).1 = [⟨S3Op.getBucketAcl, c, b, ""⟩] := by
  cases h : env.getBucketAcl c b <;> simp [bucket_acl_probe, h]

lemma pyRegionOr_ne (lc : Option String) : pyRegionOr lc ≠ "" := by
  cases lc with
  | none => simp [pyRegionOr]
  | some s =>
    by_cases h : s = "" <;> simp [pyRegionOr, h]

/-- Trace characterisation of a run that passes the existence check: the
six calls in order, the first two on the original client region, the last
four on the region chosen by the rebind decision. -/
lemma debug_calls (env : Env) (url : String) (profile region : Option String)
    (hb : env.headBucket region (extract_bucket_and_key url).1 = none) :
    (debug_s3_access env url profile region).1 =
      fullTrace (extract_bucket_and_key url).1 (extract_bucket_and_key url).2 region
        (rebindRegion (check_bucket_location env region (extract_bucket_and_key url).1).2.2
          region) := by
  simp [debug_s3_access, check_bucket_exists, hb, fullTrace,
    calls_check_bucket_location, calls_check_object_metadata,
    calls_list_similar_objects, calls_check_bucket_policy, calls_bucket_acl_probe]

/-- Claim C5: whenever the existence probe fails — with "not found"
(404), "forbidden" (403), or any other client error — the orchestrator
aborts: the only remote call of the whole run is the `head_bucket`
existence query; location, metadata, listing, policy and ACL probes never
issue a call. -/
theorem c5_existence_failure_aborts (env : Env) (url : String)
    (profile region : Option String) (e : ClientError)
    (h : env.headBucket region (extract_bucket_and_key url).1 = some e) :
    (debug_s3_access env url profile region).1 =
      [⟨S3Op.headBucket, region, (extract_bucket_and_key url).1, ""⟩] := by
  simp [debug_s3_access, check_bucket_exists, h]

/-- Witness for C5 at a concrete denied environment and URL. -/
theorem c5_witness :
    (debug_s3_access envDenied "https://s3.amazonaws.com/b/k" none
      (some "us-east-1")).1 =
      [⟨S3Op.headBucket, some "us-east-1", "b", ""⟩] := by
  rw [c5_existence_failure_aborts envDenied "https://s3.amazonaws.com/b/k" none
    (some "us-east-1") ⟨"403", "denied"⟩ rfl]
  decide

/-- Claim C6: if the location probe succeeds and the discovered region
differs from a caller-supplied (non-empty) region hint, the four probes
after it run on a client rebuilt for the discovered region; if the
location probe fails, or no hint was supplied, or the regions agree, all
probes run on the original client. -/
theorem c6_region_rebind (env : Env) (url : String) (profile region : Option String)
    (hb : env.headBucket region (extract_bucket_and_key url).1 = none) :
    (∀ lc r,
        env.getBucketLocation region (extract_bucket_and_key url).1 = Except.ok lc →
        region = some r → r ≠ "" → pyRegionOr lc ≠ r →
        (debug_s3_access env url profile region).1 =
          fullTrace (extract_bucket_and_key url).1 (extract_bucket_and_key url).2
            region (some (pyRegionOr lc)))
    ∧ (∀ lc r,
        env.getBucketLocation region (extract_bucket_and_key url).1 = Except.ok lc →
        region = some r → pyRegionOr lc = r →
        (debug_s3_access env url profile region).1 =
          fullTrace (extract_bucket_and_key url).1 (extract_bucket_and_key url).2
            region region)
    ∧ (region = none →
        (debug_s3_access env url profile region).1 =
          fullTrace (extract_bucket_and_key url).1 (extract_bucket_and_key url).2
            region region)
    ∧ (∀ e,
        env.getBucketLocation region (extract_bucket_and_key url).1 = Except.error e →
        (debug_s3_access env url profile region).1 =
          fullTrace (extract_bucket_and_key url).1 (extract_bucket_and_key url).2
            region region) := by
  refine ⟨?_, ?_, ?_, ?_⟩
  · intro lc r hloc hr hne hdiff
    rw [debug_calls env url profile region hb]
    subst hr
    simp [check_bucket_location, hloc, rebindRegion, pyRegionOr_ne lc, hne, hdiff]
  · intro lc r hloc hr heq
    rw [debug_calls env url profile region hb]
    subst hr
    simp [check_bucket_location, hloc, rebindRegion, heq]
  · intro hr
    rw [debug_calls env url profile region hb]
    subst hr
    cases h : (check_bucket_location env none (extract_bucket_and_key url).1).2.2 <;>
      simp [rebindRegion]
  · intro e hloc
    rw [debug_calls env url profile region hb]
    cases region <;> simp [check_bucket_location, hloc, rebindRegion]

/-- Witness for C6 at a concrete environment whose bucket region
`eu-west-1` differs from the supplied hint `us-west-2`: the last four
calls are bound to `eu-west-1`. -/
theorem c6_witness :
    (debug_s3_access env0 "https://s3.amazonaws.com/b/k" none (some "us-west-2")).1 =
      fullTrace "b" "k" (some "us-west-2") (some "eu-west-1") := by
  rw [(c6_region_rebind env0 "https://s3.amazonaws.com/b/k" none (some "us-west-2")
    rfl).1 (some "eu-west-1") "us-west-2" rfl rfl (by decide) (by decide)]
  decide

/-- Claim C7: a "no such policy" error from the bucket-policy fetch is
rendered as a yellow informational message (never a red error), any other
error is rendered as a red error, and in either case the run still issues
the bucket-ACL call after the policy call (the full six-probe order is
preserved whenever the existence check passes). -/
theorem c7_policy_informational (env : Env) :
    (∀ (c : Option String) (b : String) (e : ClientError),
        env.getBucketPolicy c b = Except.error e → e.code = "NoSuchBucketPolicy" →
        check_bucket_policy env c b =
          ([⟨S3Op.getBucketPolicy, c, b, ""⟩], [Msg.yellow "No bucket policy found"]))
    ∧ (∀ (c : Option String) (b : String) (e : ClientError),
        env.getBucketPolicy c b = Except.error e → e.code ≠ "NoSuchBucketPolicy" →
        check_bucket_policy env c b =
          ([⟨S3Op.getBucketPolicy, c, b, ""⟩],
           [Msg.red ("Error getting bucket policy: " ++ e.msg)]))
    ∧ (∀ (url : String) (profile region : Option String),
        env.headBucket region (extract_bucket_and_key url).1 = none →
        (debug_s3_access env url profile region).1.map Call.op =
          [S3Op.headBucket, S3Op.getBucketLocation, S3Op.headObject,
           S3Op.listObjectsV2, S3Op.getBucketPolicy, S3Op.getBucketAcl]) := by
  refine ⟨?_, ?_, ?_⟩
  · intro c b e he hc
    simp [check_bucket_policy, he, hc]
  · intro c b e he hc
    simp [check_bucket_policy, he, hc]
  · intro url profile region hb
    rw [debug_calls env url profile region hb]
    simp [fullTrace]

/-- Witness for C7: in `env0` the policy probe reports "no such policy"
as a yellow message and the six-call order (ACL after policy) holds. -/
theorem c7_witness :
    check_bucket_policy env0 none "b" =
      ([⟨S3Op.getBucketPolicy, none, "b", ""⟩], [Msg.yellow "No bucket policy found"])
    ∧ (debug_s3_access env0 "https://s3.amazonaws.com/b/k" none none).1.map Call.op =
      [S3Op.headBucket, S3Op.getBucketLocation, S3Op.headObject,
       S3Op.listObjectsV2, S3Op.getBucketPolicy, S3Op.getBucketAcl] :=
  ⟨(c7_policy_informational env0).1 none "b" ⟨"NoSuchBucketPolicy", "no policy"⟩ rfl rfl,
   (c7_policy_informational env0).2.2 "https://s3.amazonaws.com/b/k" none none rfl⟩

/-- Claim C9: when `get_bucket_location` succeeds but the returned
`LocationConstraint` is null or empty, the location probe reports and
returns the region `us-east-1`. -/
theorem c9_default_region (env : Env) (c : Option String) (b : String)
    (h : env.getBucketLocation c b = Except.ok none ∨
         env.getBucketLocation c b = Except.ok (some "")) :
    check_bucket_location env c b =
      ([⟨S3Op.getBucketLocation, c, b, ""⟩],
       [Msg.green ("Bucket region: " ++ "us-east-1")], some "us-east-1") := by
  rcases h with h | h <;> simp [check_bucket_location, h, pyRegionOr]

/-- Witness for C9 at a concrete environment returning a null
`LocationConstraint`. -/
theorem c9_witness :
    check_bucket_location envLocNull none "b" =
      ([⟨S3Op.getBucketLocation, none, "b", ""⟩],
       [Msg.green ("Bucket region: " ++ "us-east-1")], some "us-east-1") :=
  c9_default_region envLocNull none "b" (Or.inl rfl)

/-- Claim C1 counterexample: `a.s3.b` is a well-formed bucket name (dots
are legal) and `x.amazonaws.com/y` a well-formed key, yet the resolver
does not return them for the virtual-hosted URL they form — it returns
`("a", "y")`. -/
theorem c1_counterexample :
    extract_bucket_and_key
        ("https://" ++ "a.s3.b" ++ ".s3." ++ "us-east-1" ++ ".amazonaws.com/" ++
          "x.amazonaws.com/y") ≠
      ("a.s3.b", "x.amazonaws.com/y") := by decide

/-- Claim C2 counterexample: for this URL the host contains `.s3.`, yet
the resolver returns neither the host-label immediately preceding `.s3.`
(it returns `a.b`, not `b`) nor everything after the first
`.amazonaws.com/` (it returns the part after the last occurrence). -/
theorem c2_counterexample :
    strContainsSub
        (urlparse_netloc "https://a.b.s3.us-east-1.amazonaws.com/p.amazonaws.com/q")
        ".s3." = true
    ∧ extract_bucket_and_key "https://a.b.s3.us-east-1.amazonaws.com/p.amazonaws.com/q" ≠
        (c2SpecBucket "https://a.b.s3.us-east-1.amazonaws.com/p.amazonaws.com/q",
         c2SpecKey "https://a.b.s3.us-east-1.amazonaws.com/p.amazonaws.com/q") := by
  decide

/-- Claim C3 counterexample: `my.s3.bucket` is a well-formed bucket name,
but its path-style URL contains `.s3.`, so the resolver takes the
virtual-hosted branch and returns `("my", "my.s3.bucket/x?y")`. -/
theorem c3_counterexample :
    extract_bucket_and_key ("https://s3.amazonaws.com/" ++ "my.s3.bucket" ++ "/" ++ "x?y") ≠
      ("my.s3.bucket", "x?y") := by decide

/-- Claim C4 counterexample: the host of this URL does not contain
`.s3.`, the parsed path starts with two slashes, and the resolver returns
`("a", "b")` — not the empty bucket the claim's single-slash stripping
predicts, because `lstrip('/')` removes all leading slashes. -/
theorem c4_counterexample :
    strContainsSub (urlparse_netloc "https://s3.amazonaws.com//a/b") ".s3." = false
    ∧ extract_bucket_and_key "https://s3.amazonaws.com//a/b" ≠
        c4SpecResolve "https://s3.amazonaws.com//a/b" := by decide

/-! String-scanning lemmas used by the resolver claims. -/

lemma isPre_nil (l : List Char) : List.isPrefixOf [] l = true := by
  cases l <;> rfl

lemma isPre_cons_cons (a b : Char) (as bs : List Char) :
    (a :: as).isPrefixOf (b :: bs) = ((a == b) && as.isPrefixOf bs) := rfl

lemma isPre_cons_nil (a : Char) (as : List Char) :
    (a :: as).isPrefixOf ([] : List Char) = false := rfl

lemma isPre_refl_append (l t : List Char) : l.isPrefixOf (l ++ t) = true := by
  induction l with
  | nil => exact isPre_nil t
  | cons a as ih => simp [isPre_cons_cons, ih]

lemma isPre_length_le {sub : List Char} : ∀ {l : List Char},
    sub.isPrefixOf l = true → sub.length ≤ l.length := by
  induction sub with
  | nil => intro l _; simp
  | cons a as ih =>
    intro l h
    cases l with
    | nil => rw [isPre_cons_nil] at h; exact absurd h (by simp)
    | cons b bs =>
      rw [isPre_cons_cons, Bool.and_eq_true] at h
      simpa using ih h.2

lemma isPre_append_short : ∀ (sub a b : List Char), sub.length ≤ a.length →
    sub.isPrefixOf (a ++ b) = sub.isPrefixOf a
  | [], a, b, _ => by rw [isPre_nil, isPre_nil]
  | s :: ss, [], b, h => by simp at h
  | s :: ss, c :: a', b, h => by
    rw [List.cons_append, isPre_cons_cons, isPre_cons_cons,
      isPre_append_short ss a' b (by simpa using h)]

lemma isPre_long_mem : ∀ (sub a b : List Char) (x : Char),
    sub.isPrefixOf (a ++ x :: b) = true → a.length < sub.length → x ∈ sub
  | [], a, b, x, _, hl => by simp at hl
  | s :: ss, [], b, x, h, _ => by
    rw [List.nil_append, isPre_cons_cons, Bool.and_eq_true] at h
    have : s = x := by simpa using h.1
    simp [this]
  | s :: ss, c :: a', b, x, h, hl => by
    rw [List.cons_append, isPre_cons_cons, Bool.and_eq_true] at h
    have := isPre_long_mem ss a' b x h.2 (by simpa using hl)
    simp [this]

lemma containsSub_nil_sub (l : List Char) : containsSub [] l = true := by
  cases l <;> simp [containsSub, isPre_nil]

lemma containsSub_cons (sub : List Char) (c : Char) (cs : List Char) :
    containsSub sub (c :: cs) = (sub.isPrefixOf (c :: cs) || containsSub sub cs) := rfl

lemma containsSub_of_isPre {sub l : List Char} (h : sub.isPrefixOf l = true) :
    containsSub sub l = true := by
  cases l with
  | nil =>
    cases sub with
    | nil => simp [containsSub]
    | cons s ss => rw [isPre_cons_nil] at h; exact absurd h (by simp)
  | cons c cs => simp [containsSub_cons, h]

lemma containsSub_sandwich (sub a b : List Char) :
    containsSub sub (a ++ (sub ++ b)) = true := by
  induction a with
  | nil => simpa using containsSub_of_isPre (isPre_refl_append sub b)
  | cons c a' ih => simp [containsSub_cons, ih]

lemma containsSub_mono (a : List Char) {sub b : List Char}
    (h : containsSub sub b = true) : containsSub sub (a ++ b) = true := by
  induction a with
  | nil => simpa using h
  | cons c a' ih => simp [containsSub_cons, ih]

lemma containsSub_single (x : Char) (l : List Char) :
    containsSub [x] l = true ↔ x ∈ l := by
  induction l with
  | nil => simp [containsSub]
  | cons c cs ih =>
    rw [containsSub_cons, Bool.or_eq_true, isPre_cons_cons, isPre_nil]
    simp only [Bool.and_true, beq_iff_eq, List.mem_cons, ih]

lemma containsSub_split (sub : List Char) (x : Char) (hx : x ∉ sub) :
    ∀ (a b : List Char),
      containsSub sub (a ++ x :: b) = (containsSub sub a || containsSub sub b) := by
  intro a
  induction a with
  | nil =>
    intro b
    cases sub with
    | nil => simp [containsSub_nil_sub]
    | cons s ss =>
      rw [List.nil_append, containsSub_cons, isPre_cons_cons]
      have hs : (s == x) = false := by
        simp only [List.mem_cons, not_or] at hx
        simpa using fun h => hx.1 h.symm
      rw [hs]
      simp [containsSub]
  | cons c a' ih =>
    intro b
    rw [List.cons_append, containsSub_cons, containsSub_cons, ih b]
    have hpre : sub.isPrefixOf (c :: (a' ++ x :: b)) = sub.isPrefixOf (c :: a') := by
      by_cases hlen : sub.length ≤ (c :: a').length
      · have := isPre_append_short sub (c :: a') (x :: b) hlen
        simpa using this
      · have h1 : sub.isPrefixOf (c :: (a' ++ x :: b)) = false := by
          cases hq : sub.isPrefixOf (c :: (a' ++ x :: b)) with
          | false => rfl
          | true =>
            have : x ∈ sub := by
              have hq' : sub.isPrefixOf ((c :: a') ++ x :: b) = true := by simpa using hq
              exact isPre_long_mem sub (c :: a') b x hq' (by omega)
            exact absurd this hx
        have h2 : sub.isPrefixOf (c :: a') = false := by
          cases hq : sub.isPrefixOf (c :: a') with
          | false => rfl
          | true => exact absurd (isPre_length_le hq) hlen
        rw [h1, h2]
    rw [hpre, Bool.or_assoc]

lemma beforeFirst_not_contains {sub : List Char} : ∀ {s : List Char},
    containsSub sub s = false → beforeFirst sub s = s := by
  intro s
  induction s with
  | nil => intro _; rfl
  | cons c cs ih =>
    intro h
    rw [containsSub_cons, Bool.or_eq_false_iff] at h
    simp [beforeFirst, h.1, ih h.2]

lemma dropLast_cons_ne (c : Char) {t : List Char} (h : t ≠ []) :
    (c :: t).dropLast = c :: t.dropLast := by
  cases t with
  | nil => exact absurd rfl h
  | cons x xs => rfl

/-- Shared step of the first-occurrence lemmas: when `sep` does not occur
before position `|a'| + 1` (phrased through `dropLast`), it is not a
prefix at position 0 of `c :: a' ++ sep ++ b`. -/
lemma isPre_false_of_dropLast (sep : List Char) (c : Char) (a' b : List Char)
    (hne : a' ++ sep ≠ [])
    (h1 : sep.isPrefixOf (c :: (a' ++ sep).dropLast) = false)
    (h2 : containsSub sep ((a' ++ sep).dropLast) = false) :
    sep.isPrefixOf (c :: (a' ++ (sep ++ b))) = false := by
  cases hq : sep.isPrefixOf (c :: (a' ++ (sep ++ b))) with
  | false => rfl
  | true =>
    exfalso
    have hz := List.dropLast_append_getLast hne
    set D := (a' ++ sep).dropLast with hD
    set z := (a' ++ sep).getLast hne with hzdef
    have hshape : c :: (a' ++ (sep ++ b)) = (c :: D) ++ (z :: b) := by
      have : a' ++ (sep ++ b) = D ++ (z :: b) := by
        rw [← List.append_assoc, ← hz]
        simp
      rw [this]
      rfl
    rw [hshape] at hq
    have hlenD : D.length + 1 = a'.length + sep.length := by
      have := congrArg List.length hz
      simp at this
      omega
    have hlen : sep.length ≤ (c :: D).length := by
      simp only [List.length_cons]
      omega
    rw [isPre_append_short sep (c :: D) (z :: b) hlen] at hq
    have hcon := containsSub_of_isPre hq
    rw [containsSub_cons, h1, h2] at hcon
    simp at hcon

lemma beforeFirst_append (sep : List Char) (hs : sep ≠ []) :
    ∀ (a b : List Char), containsSub sep ((a ++ sep).dropLast) = false →
      beforeFirst sep (a ++ (sep ++ b)) = a := by
  intro a
  induction a with
  | nil =>
    intro b _
    cases sep with
    | nil => exact absurd rfl hs
    | cons s ss =>
      rw [List.nil_append]
      have : (s :: ss) ++ b = s :: (ss ++ b) := rfl
      rw [this]
      have hp : (s :: ss).isPrefixOf (s :: (ss ++ b)) = true := by
        simpa using isPre_refl_append (s :: ss) b
      simp [beforeFirst, hp]
  | cons c a' ih =>
    intro b h
    have hne : a' ++ sep ≠ [] := by simp [hs]
    rw [List.cons_append] at h ⊢
    rw [dropLast_cons_ne c hne, containsSub_cons, Bool.or_eq_false_iff] at h
    have hpre := isPre_false_of_dropLast sep c a' b hne h.1 h.2
    simp [beforeFirst, hpre, ih b h.2]

lemma lastPartF_nil (sep : List Char) (n : Nat) : lastPartF sep n [] = [] := by
  cases n <;> rfl

lemma lastPartF_succ (sep : List Char) (n : Nat) (c : Char) (cs : List Char) :
    lastPartF sep (n + 1) (c :: cs) =
      if sep.isPrefixOf (c :: cs) then lastPartF sep n (cs.drop (sep.length - 1))
      else if containsSub sep cs then lastPartF sep n cs
      else c :: cs := rfl

lemma lastPartF_fuel (sep : List Char) : ∀ (n : Nat) (s : List Char) (m : Nat),
    s.length ≤ n → s.length ≤ m → lastPartF sep n s = lastPartF sep m s := by
  intro n
  induction n with
  | zero =>
    intro s m hn _
    have : s = [] := List.length_eq_zero.mp (Nat.le_zero.mp hn)
    subst this
    rw [lastPartF_nil, lastPartF_nil]
  | succ n ih =>
    intro s m hn hm
    cases s with
    | nil => rw [lastPartF_nil, lastPartF_nil]
    | cons c cs =>
      cases m with
      | zero => simp at hm
      | succ m' =>
        rw [lastPartF_succ, lastPartF_succ]
        have hcs : cs.length ≤ n := by simpa using hn
        have hcs' : cs.length ≤ m' := by simpa using hm
        by_cases h1 : sep.isPrefixOf (c :: cs) = true
        · simp only [h1, if_true]
          exact ih _ m' (by simp [List.length_drop]; omega)
            (by simp [List.length_drop]; omega)
        · simp only [Bool.not_eq_true] at h1
          by_cases h2 : containsSub sep cs = true
          · simp only [h1, h2, Bool.false_eq_true, if_false, if_true]
            exact ih _ m' hcs hcs'
          · simp only [Bool.not_eq_true] at h2
            simp [h1, h2]

lemma lastPart_cons (sep : List Char) (c : Char) (cs : List Char) :
    lastPart sep (c :: cs) =
      if sep.isPrefixOf (c :: cs) then lastPart sep (cs.drop (sep.length - 1))
      else if containsSub sep cs then lastPart sep cs
      else c :: cs := by
  rw [lastPart, List.length_cons, lastPartF_succ]
  by_cases h1 : sep.isPrefixOf (c :: cs) = true
  · simp only [h1, if_true]
    exact lastPartF_fuel sep cs.length _ _ (by simp [List.length_drop]) le_rfl
  · simp only [Bool.not_eq_true] at h1
    by_cases h2 : containsSub sep cs = true
    · simp only [h1, h2, Bool.false_eq_true, if_false, if_true]
      exact lastPartF_fuel sep cs.length cs cs.length (by omega) le_rfl
    · simp only [Bool.not_eq_true] at h2
      simp [h1, h2, lastPart]

lemma lastPart_not_contains {sep s : List Char} (h : containsSub sep s = false) :
    lastPart sep s = s := by
  cases s with
  | nil => rfl
  | cons c cs =>
    rw [containsSub_cons, Bool.or_eq_false_iff] at h
    rw [lastPart_cons]
    simp [h.1, h.2]

lemma lastPart_append (sep : List Char) (hs : sep ≠ []) :
    ∀ (a b : List Char), containsSub sep ((a ++ sep).dropLast) = false →
      lastPart sep (a ++ (sep ++ b)) = lastPart sep b := by
  intro a
  induction a with
  | nil =>
    intro b _
    cases sep with
    | nil => exact absurd rfl hs
    | cons s ss =>
      rw [List.nil_append]
      have hshape : (s :: ss) ++ b = s :: (ss ++ b) := rfl
      rw [hshape, lastPart_cons]
      have hp : (s :: ss).isPrefixOf (s :: (ss ++ b)) = true := by
        simpa using isPre_refl_append (s :: ss) b
      rw [if_pos hp]
      have : (ss ++ b).drop ((s :: ss).length - 1) = b := by
        simp [List.drop_left]
      rw [this]
  | cons c a' ih =>
    intro b h
    have hne : a' ++ sep ≠ [] := by simp [hs]
    rw [List.cons_append] at h ⊢
    rw [dropLast_cons_ne c hne, containsSub_cons, Bool.or_eq_false_iff] at h
    have hpre := isPre_false_of_dropLast sep c a' b hne h.1 h.2
    rw [lastPart_cons, hpre]
    simp only [Bool.false_eq_true, if_false]
    rw [if_pos (containsSub_sandwich sep a' b)]
    exact ih b h.2

lemma splitSlash_ne_nil (l : List Char) : splitSlash l ≠ [] := by
  cases l with
  | nil => simp [splitSlash]
  | cons c cs => by_cases h : c = '/' <;> simp [splitSlash, h]

lemma splitSlash_cons_slash (cs : List Char) :
    splitSlash ('/' :: cs) = [] :: splitSlash cs := by
  simp [splitSlash]

lemma splitSlash_cons_ne (c : Char) (cs : List Char) (h : ¬ c = '/') :
    splitSlash (c :: cs) = (c :: (splitSlash cs).headD []) :: (splitSlash cs).tail := by
  simp [splitSlash, h]

lemma splitSlash_exists_cons (l : List Char) :
    ∃ g gs, splitSlash l = g :: gs := by
  cases hq : splitSlash l with
  | nil => exact absurd hq (splitSlash_ne_nil l)
  | cons g gs => exact ⟨g, gs, rfl⟩

lemma splitSlash_no_slash : ∀ {l : List Char}, '/' ∉ l → splitSlash l = [l] := by
  intro l
  induction l with
  | nil => intro _; rfl
  | cons c cs ih =>
    intro h
    simp only [List.mem_cons, not_or] at h
    rw [splitSlash_cons_ne c cs (fun he => h.1 he.symm), ih h.2]
    rfl

lemma splitSlash_len_two : ∀ {l : List Char}, '/' ∈ l → 1 < (splitSlash l).length := by
  intro l
  induction l with
  | nil => intro h; simp at h
  | cons c cs ih =>
    intro h
    by_cases hc : c = '/'
    · subst hc
      rw [splitSlash_cons_slash]
      obtain ⟨g, gs, hg⟩ := splitSlash_exists_cons cs
      rw [hg]
      simp
    · have hmem : '/' ∈ cs := by
        rcases List.mem_cons.mp h with h1 | h2
        · exact absurd h1.symm hc
        · exact h2
      rw [splitSlash_cons_ne c cs hc]
      obtain ⟨g, gs, hg⟩ := splitSlash_exists_cons cs
      have h2 := ih hmem
      rw [hg] at h2 ⊢
      simp at h2 ⊢
      omega

lemma joinSlash_single (g : List Char) : joinSlash [g] = g := by
  simp [joinSlash, List.intersperse]

lemma joinSlash_cons (g g1 : List Char) (gs : List (List Char)) :
    joinSlash (g :: g1 :: gs) = g ++ '/' :: joinSlash (g1 :: gs) := by
  simp [joinSlash, List.intersperse]

lemma join_split : ∀ l : List Char, joinSlash (splitSlash l) = l := by
  intro l
  induction l with
  | nil => rfl
  | cons c cs ih =>
    obtain ⟨g, gs, hg⟩ := splitSlash_exists_cons cs
    by_cases h : c = '/'
    · subst h
      rw [splitSlash_cons_slash, hg, joinSlash_cons, ← hg, ih]
      rfl
    · rw [splitSlash_cons_ne c cs h, hg]
      cases gs with
      | nil =>
        have hgc : g = cs := by rw [hg, joinSlash_single] at ih; exact ih
        simp [joinSlash_single, hgc]
      | cons g1 gs1 =>
        have hcs : g ++ '/' :: joinSlash (g1 :: gs1) = cs := by
          rw [hg, joinSlash_cons] at ih; exact ih
        calc joinSlash ((c :: g) :: g1 :: gs1)
            = (c :: g) ++ '/' :: joinSlash (g1 :: gs1) := joinSlash_cons _ _ _
          _ = c :: (g ++ '/' :: joinSlash (g1 :: gs1)) := rfl
          _ = c :: cs := by rw [hcs]

lemma splitSlash_append : ∀ (p s : List Char), '/' ∉ s →
    splitSlash (p ++ '/' :: s) = splitSlash p ++ [s] := by
  intro p
  induction p with
  | nil =>
    intro s hs
    rw [List.nil_append, splitSlash_cons_slash, splitSlash_no_slash hs]
    rfl
  | cons c p' ih =>
    intro s hs
    by_cases h : c = '/'
    · subst h
      rw [List.cons_append, splitSlash_cons_slash, splitSlash_cons_slash, ih s hs]
      rfl
    · rw [List.cons_append, splitSlash_cons_ne c _ h, splitSlash_cons_ne c p' h, ih s hs]
      obtain ⟨g, gs, hg⟩ := splitSlash_exists_cons p'
      rw [hg]
      rfl

lemma lastPart_slash_getLast : ∀ l : List Char,
    lastPart ['/'] l = (splitSlash l).getLastD [] := by
  intro l
  induction l with
  | nil => rfl
  | cons c cs ih =>
    by_cases h : c = '/'
    · subst h
      rw [lastPart_cons]
      have hp : (['/'] : List Char).isPrefixOf ('/' :: cs) = true := by
        rw [isPre_cons_cons, isPre_nil]; simp
      rw [if_pos hp]
      have hd : cs.drop ((['/'] : List Char).length - 1) = cs := by simp
      rw [hd, splitSlash_cons_slash, ih, List.getLastD_cons]
    · rw [lastPart_cons]
      have hp : (['/'] : List Char).isPrefixOf (c :: cs) = false := by
        rw [isPre_cons_cons, isPre_nil]
        simp only [Bool.and_true, beq_eq_false_iff_ne, ne_eq]
        exact fun he => h he.symm
      rw [hp]
      simp only [Bool.false_eq_true, if_false]
      rw [splitSlash_cons_ne c cs h]
      obtain ⟨g, gs, hg⟩ := splitSlash_exists_cons cs
      by_cases h2 : containsSub ['/'] cs = true
      · rw [if_pos h2, ih, hg]
        have hmem : '/' ∈ cs := (containsSub_single '/' cs).mp h2
        have hlen := splitSlash_len_two hmem
        rw [hg] at hlen
        cases gs with
        | nil => simp at hlen
        | cons g1 gs1 => simp [List.getLastD_cons]
      · have h2' : containsSub ['/'] cs = false := by
          cases hq : containsSub ['/'] cs with
          | false => rfl
          | true => exact absurd hq h2
        rw [h2']
        simp only [Bool.false_eq_true, if_false]
        have hmem : '/' ∉ cs := fun hm => by
          rw [(containsSub_single '/' cs).mpr hm] at h2'
          exact absurd h2' (by simp)
        rw [splitSlash_no_slash hmem]
        simp [List.getLastD_cons]

/-! takeWhile/dropWhile and filter helpers. -/

lemma takeWhile_cons_pos {p : Char → Bool} {c : Char} {l : List Char} (h : p c = true) :
    (c :: l).takeWhile p = c :: l.takeWhile p := by
  simp [List.takeWhile_cons, h]

lemma takeWhile_cons_neg {p : Char → Bool} {c : Char} {l : List Char} (h : p c = false) :
    (c :: l).takeWhile p = [] := by
  simp [List.takeWhile_cons, h]

lemma dropWhile_cons_pos {p : Char → Bool} {c : Char} {l : List Char} (h : p c = true) :
    (c :: l).dropWhile p = l.dropWhile p := by
  simp [List.dropWhile_cons, h]

lemma dropWhile_cons_neg {p : Char → Bool} {c : Char} {l : List Char} (h : p c = false) :
    (c :: l).dropWhile p = c :: l := by
  simp [List.dropWhile_cons, h]

lemma takeWhile_append_all {p : Char → Bool} : ∀ {a : List Char},
    (∀ c ∈ a, p c = true) → ∀ b, (a ++ b).takeWhile p = a ++ b.takeWhile p := by
  intro a
  induction a with
  | nil => intro _ b; simp
  | cons c a' ih =>
    intro h b
    rw [List.cons_append, takeWhile_cons_pos (h c (by simp)),
      ih (fun x hx => h x (by simp [hx])) b]
    rfl

lemma dropWhile_append_all {p : Char → Bool} : ∀ {a : List Char},
    (∀ c ∈ a, p c = true) → ∀ b, (a ++ b).dropWhile p = b.dropWhile p := by
  intro a
  induction a with
  | nil => intro _ b; simp
  | cons c a' ih =>
    intro h b
    rw [List.cons_append, dropWhile_cons_pos (h c (by simp)),
      ih (fun x hx => h x (by simp [hx])) b]

lemma takeWhile_all {p : Char → Bool} : ∀ {l : List Char},
    (∀ c ∈ l, p c = true) → l.takeWhile p = l := by
  intro l
  induction l with
  | nil => intro _; rfl
  | cons c l' ih =>
    intro h
    rw [takeWhile_cons_pos (h c (by simp)), ih (fun x hx => h x (by simp [hx]))]

lemma dropWhile_all {p : Char → Bool} : ∀ {l : List Char},
    (∀ c ∈ l, p c = true) → l.dropWhile p = [] := by
  intro l
  induction l with
  | nil => intro _; rfl
  | cons c l' ih =>
    intro h
    rw [dropWhile_cons_pos (h c (by simp)), ih (fun x hx => h x (by simp [hx]))]

lemma takeWhile_of_dropWhile_nil {p : Char → Bool} : ∀ {l : List Char},
    l.dropWhile p = [] → l.takeWhile p = l := by
  intro l
  induction l with
  | nil => intro _; rfl
  | cons c l' ih =>
    intro h
    cases hc : p c with
    | false => rw [dropWhile_cons_neg hc] at h; exact absurd h (by simp)
    | true => rw [dropWhile_cons_pos hc] at h; rw [takeWhile_cons_pos hc, ih h]

/-! String-level bridges. -/

lemma str_data_append (s t : String) : (s ++ t).data = s.data ++ t.data := rfl

lemma str_mk_data (s : String) : String.mk s.data = s := rfl

lemma str_ext {s t : String} (h : s.data = t.data) : s = t := by
  cases s; cases t; exact congrArg String.mk h

lemma str_ne_empty {s : String} (h : s ≠ "") : s.data ≠ [] := by
  intro hd
  exact h (str_ext (by rw [hd]))

/-! Character-class helpers for the resolver hypotheses. -/

lemma plain_facts {c : Char} (h : plainChar c = true) :
    32 < c.toNat ∧ c.toNat < 127 ∧ c ≠ '?' ∧ c ≠ '#' ∧ c ≠ '[' ∧ c ≠ ']' ∧ c ≠ ';' := by
  simp only [plainChar, Bool.and_eq_true, decide_eq_true_eq, Bool.not_eq_true',
    decide_eq_false_iff_not] at h
  tauto

lemma plain_ne_low {c x : Char} (h32 : 32 < c.toNat) (hx : x.toNat ≤ 32) : c ≠ x := by
  intro he
  subst he
  omega

lemma all_mem {p : Char → Bool} {l : List Char} (h : l.all p = true) :
    ∀ c ∈ l, p c = true := by
  intro c hc
  exact List.all_eq_true.mp h c hc

lemma data_mk (l : List Char) : (String.mk l).data = l := rfl

lemma urlparse_path_data (url : String) :
    (urlparse_path url).data = urlparsePathL url.data := rfl

lemma not_slash_of_strContains {s : String} (h : strContainsSub s "/" = false) :
    '/' ∉ s.data := by
  intro hm
  have h2 := (containsSub_single '/' s.data).mpr hm
  rw [show strContainsSub s "/" = containsSub ['/'] s.data from rfl] at h
  rw [h2] at h
  exact absurd h (by simp)

/-- Claim C8: the similar-objects listing prefix is the key with exactly
its last `/`-delimited segment stripped — appending `/segment` (slash-free
segment) to any key yields that key back as the prefix, a slash-free key
(including the empty key) yields the empty prefix, and the spec's example
holds. -/
theorem c8_keydir_strip :
    (∀ p s : String, strContainsSub s "/" = false → keyDir (p ++ "/" ++ s) = p)
    ∧ (∀ k : String, strContainsSub k "/" = false → keyDir k = "")
    ∧ keyDir "folder/sub/file.txt" = "folder/sub" := by
  refine ⟨?_, ?_, by decide⟩
  · intro p s h
    have hs : '/' ∉ s.data := not_slash_of_strContains h
    have hdata : (p ++ "/" ++ s).data = p.data ++ '/' :: s.data := by
      rw [str_data_append, str_data_append]
      simp
    unfold keyDir
    rw [hdata, splitSlash_append p.data s.data hs, List.dropLast_concat, join_split,
      str_mk_data]
  · intro k h
    have hk : '/' ∉ k.data := not_slash_of_strContains h
    unfold keyDir
    rw [splitSlash_no_slash hk]
    rfl

/-- Witness for C8: the key `folder/sub/file.txt` yields the prefix
`folder/sub`, and the slash-free key `file.txt` yields the empty
prefix. -/
theorem c8_witness :
    keyDir ("folder/sub" ++ "/" ++ "file.txt") = "folder/sub"
    ∧ keyDir "file.txt" = "" :=
  ⟨c8_keydir_strip.1 "folder/sub" "file.txt" (by decide),
   c8_keydir_strip.2.1 "file.txt" (by decide)⟩

/-- Claim C2 (amended): for every URL containing `.s3.`, the resolver's
bucket is the last `/`-separated field of the part of the raw URL before
the first `.s3.` (not a host-label of the parsed host), and its key is
the last field of the left-to-right split of the raw URL on
`.amazonaws.com/` (everything after the last occurrence, not the first),
used verbatim. -/
theorem c2_resolver_shape (url : String) (h : strContainsSub url ".s3." = true) :
    extract_bucket_and_key url =
      (⟨(splitSlash (beforeFirst ".s3.".data url.data)).getLastD []⟩,
       ⟨lastPart ".amazonaws.com/".data url.data⟩) := by
  have hb : containsSub ".s3.".data url.data = true := h
  simp only [extract_bucket_and_key]
  rw [if_pos hb]
  exact congrArg₂ Prod.mk (congrArg String.mk (lastPart_slash_getLast _))
    (congrArg String.mk (join_split _))

/-- Witness for C2 at a concrete virtual-hosted URL. -/
theorem c2_witness :
    extract_bucket_and_key "https://b.s3.r.amazonaws.com/k1/k2" = ("b", "k1/k2") := by
  rw [c2_resolver_shape "https://b.s3.r.amazonaws.com/k1/k2" (by decide)]
  decide

/-- Claim C4 (amended): every URL taken by the path-style branch — any
URL not containing `.s3.` anywhere (the code tests the whole URL, not the
host) — resolves through the parsed path component with ALL leading
slashes stripped (`lstrip('/')`), then split at the first `/` into bucket
and optional key; consequently extra leading slashes never produce an
empty bucket.  The URL-safety hypothesis marks the domain on which the
embedded `urlparse` model is exact (Python raises on bracketed or
non-ASCII hosts). -/
theorem c4_pathstyle_shape (url : String)
    (h : strContainsSub url ".s3." = false)
    (hsafe : url.data.all urlSafeChar = true) :
    extract_bucket_and_key url = pathStyleResolve url := by
  have hb : containsSub ".s3.".data url.data = false := h
  simp only [extract_bucket_and_key, pathStyleResolve]
  rw [if_neg (by rw [hb]; simp)]
  cases hdw : ((urlparse_path url).data.dropWhile (fun c => c = '/')).dropWhile
      (fun c => c ≠ '/') with
  | nil =>
    simp only [splitOnce, hdw]
    rw [takeWhile_of_dropWhile_nil hdw]
    simp
  | cons x rest =>
    simp only [splitOnce, hdw]
    simp [hdw]

/-- Witness for C4 at a concrete path-style URL. -/
theorem c4_witness :
    extract_bucket_and_key "https://s3.amazonaws.com/b/k" =
      pathStyleResolve "https://s3.amazonaws.com/b/k" :=
  c4_pathstyle_shape _ (by decide) (by decide)

/-- Virtual-hosted extraction: on a URL assembled as
`https://B.s3.R.amazonaws.com/K` the resolver returns `(B, K)`, provided
`.s3.` does not occur before its separator position (no `.s3.` inside
`https://B.s3` except at the end), `B` is slash-free, and
`.amazonaws.com/` occurs neither inside the authority part nor inside
`K`. -/
lemma extract_vh (B R K : String)
    (hB1 : strContainsSub ("https://" ++ B ++ ".s3") ".s3." = false)
    (hB2 : strContainsSub B "/" = false)
    (hR : strContainsSub ("https://" ++ B ++ ".s3." ++ R ++ ".amazonaws.com")
            ".amazonaws.com/" = false)
    (hK : strContainsSub K ".amazonaws.com/" = false) :
    extract_bucket_and_key ("https://" ++ B ++ ".s3." ++ R ++ ".amazonaws.com/" ++ K)
      = (B, K) := by
  set u := "https://" ++ B ++ ".s3." ++ R ++ ".amazonaws.com/" ++ K with hu
  have hdata : u.data =
      ("https://".data ++ B.data) ++
        (".s3.".data ++ (R.data ++ (".amazonaws.com/".data ++ K.data))) := by
    rw [hu]
    simp [str_data_append]
  have hbranch : containsSub ".s3.".data u.data = true := by
    rw [hdata]
    exact containsSub_sandwich _ _ _
  simp only [extract_bucket_and_key]
  rw [if_pos hbranch]
  have hbf : beforeFirst ".s3.".data u.data = "https://".data ++ B.data := by
    rw [hdata]
    apply beforeFirst_append ".s3.".data (by decide)
    have hsplit : ((("https://".data ++ B.data) ++ ".s3.".data)).dropLast =
        ("https://".data ++ B.data) ++ ".s3".data := by
      have h4 : (".s3.".data : List Char) = ".s3".data ++ ['.'] := rfl
      rw [h4, ← List.append_assoc, List.dropLast_concat]
    rw [hsplit]
    have heq : ("https://" ++ B ++ ".s3").data =
        ("https://".data ++ B.data) ++ ".s3".data := by
      simp [str_data_append]
    rw [← heq]
    exact hB1
  have hbucket : lastPart ['/'] (beforeFirst ".s3.".data u.data) = B.data := by
    rw [hbf]
    have hshape : "https://".data ++ B.data =
        ['h', 't', 't', 'p', 's', ':'] ++ (['/'] ++ ('/' :: B.data)) := rfl
    rw [hshape,
      lastPart_append ['/'] (by decide) ['h', 't', 't', 'p', 's', ':'] ('/' :: B.data)
        (by decide)]
    have hshape2 : ('/' :: B.data) = [] ++ (['/'] ++ B.data) := rfl
    rw [hshape2, lastPart_append ['/'] (by decide) [] B.data (by decide)]
    exact lastPart_not_contains hB2
  have hdata2 : u.data =
      ("https://".data ++ (B.data ++ (".s3.".data ++ R.data))) ++
        (".amazonaws.com/".data ++ K.data) := by
    rw [hu]
    simp [str_data_append]
  have hdl : containsSub ".amazonaws.com/".data
      ((("https://".data ++ (B.data ++ (".s3.".data ++ R.data))) ++
        ".amazonaws.com/".data).dropLast) = false := by
    have hsplit : ((("https://".data ++ (B.data ++ (".s3.".data ++ R.data))) ++
        ".amazonaws.com/".data)).dropLast =
        ("https://".data ++ (B.data ++ (".s3.".data ++ R.data))) ++
          ".amazonaws.com".data := by
      have h15 : (".amazonaws.com/".data : List Char) = ".amazonaws.com".data ++ ['/'] := rfl
      rw [h15, ← List.append_assoc, List.dropLast_concat]
    rw [hsplit]
    have heq : ("https://" ++ B ++ ".s3." ++ R ++ ".amazonaws.com").data =
        ("https://".data ++ (B.data ++ (".s3.".data ++ R.data))) ++
          ".amazonaws.com".data := by
      simp [str_data_append]
    rw [← heq]
    exact hR
  have hkey : lastPart ".amazonaws.com/".data u.data = K.data := by
    rw [hdata2,
      lastPart_append ".amazonaws.com/".data (by decide)
        ("https://".data ++ (B.data ++ (".s3.".data ++ R.data))) K.data hdl]
    exact lastPart_not_contains hK
  rw [hbucket, hkey, join_split K.data]

/-- Claim C1 (amended): for every bucket name `B` (slash-free, with
`.s3.` occurring in `https://B.s3` only at the very end), region `R` such
that `.amazonaws.com/` does not occur inside `https://B.s3.R.amazonaws.com`,
and key `K` not containing `.amazonaws.com/`, the resolver maps the
virtual-hosted URL `https://B.s3.R.amazonaws.com/K` to exactly `(B, K)`,
including keys with internal slashes. -/
theorem c1_virtual_roundtrip (B R K : String)
    (hB1 : strContainsSub ("https://" ++ B ++ ".s3") ".s3." = false)
    (hB2 : strContainsSub B "/" = false)
    (hR : strContainsSub ("https://" ++ B ++ ".s3." ++ R ++ ".amazonaws.com")
            ".amazonaws.com/" = false)
    (hK : strContainsSub K ".amazonaws.com/" = false) :
    extract_bucket_and_key ("https://" ++ B ++ ".s3." ++ R ++ ".amazonaws.com/" ++ K)
      = (B, K) :=
  extract_vh B R K hB1 hB2 hR hK

/-- Witness for C1 at the spec's own example, with a multi-segment key. -/
theorem c1_witness :
    extract_bucket_and_key
        ("https://" ++ "my-bucket" ++ ".s3." ++ "us-west-2" ++ ".amazonaws.com/" ++
          "folder/sub/file.txt") =
      ("my-bucket", "folder/sub/file.txt") :=
  c1_virtual_roundtrip "my-bucket" "us-west-2" "folder/sub/file.txt"
    (by decide) (by decide) (by decide) (by decide)

lemma findCharIdx_append_not_mem (x : Char) : ∀ {a : List Char}, x ∉ a → ∀ b,
    findCharIdx x (a ++ b) = (findCharIdx x b).map (· + a.length) := by
  intro a
  induction a with
  | nil =>
    intro _ b
    cases hq : findCharIdx x b <;> simp [hq]
  | cons c a' ih =>
    intro h b
    simp only [List.mem_cons, not_or] at h
    rw [List.cons_append]
    simp only [findCharIdx]
    rw [if_neg (fun he => h.1 he.symm), ih h.2 b]
    cases hq : findCharIdx x b <;> simp [List.length_cons] <;> omega

lemma keep_byte_of_gt {c : Char} (h32 : 32 < c.toNat) :
    (!(c = '\t' || c = '\r' || c = '\n')) = true := by
  have h1 : c ≠ '\t' := plain_ne_low h32 (by decide)
  have h2 : c ≠ '\r' := plain_ne_low h32 (by decide)
  have h3 : c ≠ '\n' := plain_ne_low h32 (by decide)
  simp [h1, h2, h3]

lemma all_or_left {p q : Char → Bool} {l : List Char} (h : l.all p = true) :
    l.all (fun c => p c || q c) = true := by
  rw [List.all_eq_true] at h ⊢
  intro c hc
  simp [h c hc]

/-- Core path-pipeline computation: for the path-style base
`https://s3.amazonaws.com/` followed by a payload `P` of plain-or-slash
characters and a suffix that is empty or starts the query/fragment, the
modelled `urlparse(...).path` is `/` followed by `P`. -/
lemma ps_path_core (P tail : List Char)
    (hP : P.all (fun c => plainChar c || c = '/') = true)
    (ht : tail = [] ∨ (∃ t, tail = '?' :: t) ∨ (∃ t, tail = '#' :: t)) :
    urlparsePathL ("https://s3.amazonaws.com/".data ++ (P ++ tail)) = '/' :: P := by
  have hPfacts : ∀ c ∈ P, 32 < c.toNat ∧ c ≠ '?' ∧ c ≠ '#' ∧ c ≠ ';' := by
    intro c hc
    have hall := all_mem hP c hc
    rw [Bool.or_eq_true] at hall
    rcases hall with hpl | hsl
    · obtain ⟨h1, _, h3, h4, _, _, h7⟩ := plain_facts hpl
      exact ⟨h1, h3, h4, h7⟩
    · have hc' : c = '/' := by simpa using hsl
      subst hc'
      exact ⟨by decide, by decide, by decide, by decide⟩
  set tl := removeUnsafe tail with htl
  have htail' : tl = [] ∨ (∃ t, tl = '?' :: t) ∨ (∃ t, tl = '#' :: t) := by
    have hq : (!(('?' : Char) = '\t' || ('?' : Char) = '\r' || ('?' : Char) = '\n'))
        = true := by decide
    have hh : (!(('#' : Char) = '\t' || ('#' : Char) = '\r' || ('#' : Char) = '\n'))
        = true := by decide
    rcases ht with h | ⟨t, h⟩ | ⟨t, h⟩
    · rw [htl, h]; exact Or.inl rfl
    · refine Or.inr (Or.inl ⟨removeUnsafe t, ?_⟩)
      rw [htl, h]
      simp only [removeUnsafe, List.filter_cons]
      rw [if_pos hq]
    · refine Or.inr (Or.inr ⟨removeUnsafe t, ?_⟩)
      rw [htl, h]
      simp only [removeUnsafe, List.filter_cons]
      rw [if_pos hh]
  have hstage1 : removeUnsafe (stripC0 ("https://s3.amazonaws.com/".data ++ (P ++ tail)))
      = "https://s3.amazonaws.com/".data ++ (P ++ tl) := by
    have hs : stripC0 ("https://s3.amazonaws.com/".data ++ (P ++ tail)) =
        "https://s3.amazonaws.com/".data ++ (P ++ tail) := by
      rw [show "https://s3.amazonaws.com/".data ++ (P ++ tail) =
          'h' :: ("ttps://s3.amazonaws.com/".data ++ (P ++ tail)) from rfl]
      simp only [stripC0]
      exact dropWhile_cons_neg (by decide)
    rw [hs]
    simp only [removeUnsafe, List.filter_append]
    rw [show List.filter (fun c => !(c = '\t' || c = '\r' || c = '\n'))
        "https://s3.amazonaws.com/".data = "https://s3.amazonaws.com/".data from by decide]
    rw [List.filter_eq_self.mpr (fun c hc => keep_byte_of_gt (hPfacts c hc).1)]
    rw [htl]
    simp only [removeUnsafe]
  have hfind : findCharIdx ':' ("https://s3.amazonaws.com/".data ++ (P ++ tl)) = some 5 := by
    rw [show "https://s3.amazonaws.com/".data ++ (P ++ tl) =
        ['h', 't', 't', 'p', 's'] ++ (':' :: ("//s3.amazonaws.com/".data ++ (P ++ tl)))
        from rfl]
    rw [findCharIdx_append_not_mem ':' (by decide) _]
    simp [findCharIdx]
  have hsch : splitSchemeL ("https://s3.amazonaws.com/".data ++ (P ++ tl)) =
      ("https".data, "//s3.amazonaws.com/".data ++ (P ++ tl)) := by
    simp only [splitSchemeL, hfind]
    rw [if_pos ?hc]
    case hc =>
      refine ⟨by omega, ?_, ?_⟩
      · rw [show "https://s3.amazonaws.com/".data ++ (P ++ tl) =
            'h' :: ("ttps://s3.amazonaws.com/".data ++ (P ++ tl)) from rfl]
        rfl
      · rw [show "https://s3.amazonaws.com/".data ++ (P ++ tl) =
            ['h', 't', 't', 'p', 's'] ++ (':' :: ("//s3.amazonaws.com/".data ++ (P ++ tl)))
            from rfl]
        rw [show (5 : Nat) = (['h', 't', 't', 'p', 's'] : List Char).length from rfl,
          List.take_left]
        decide
    have ht5 : ("https://s3.amazonaws.com/".data ++ (P ++ tl)).take 5 =
        ['h', 't', 't', 'p', 's'] := by
      rw [show "https://s3.amazonaws.com/".data ++ (P ++ tl) =
          ['h', 't', 't', 'p', 's'] ++ (':' :: ("//s3.amazonaws.com/".data ++ (P ++ tl)))
          from rfl]
      rw [show (5 : Nat) = (['h', 't', 't', 'p', 's'] : List Char).length from rfl,
        List.take_left]
    have hd6 : ("https://s3.amazonaws.com/".data ++ (P ++ tl)).drop (5 + 1) =
        "//s3.amazonaws.com/".data ++ (P ++ tl) := by
      rw [show "https://s3.amazonaws.com/".data ++ (P ++ tl) =
          ['h', 't', 't', 'p', 's', ':'] ++ ("//s3.amazonaws.com/".data ++ (P ++ tl))
          from rfl]
      rw [show (5 + 1 : Nat) = (['h', 't', 't', 'p', 's', ':'] : List Char).length from rfl,
        List.drop_left]
    rw [ht5, hd6]
    exact congrArg₂ Prod.mk (by decide) rfl
  have hndS : ∀ c ∈ ("s3.amazonaws.com".data : List Char),
      (!(c = '/' || c = '?' || c = '#')) = true := by decide
  have hnl : splitNetlocL ("//s3.amazonaws.com/".data ++ (P ++ tl)) =
      ("s3.amazonaws.com".data, '/' :: (P ++ tl)) := by
    rw [show "//s3.amazonaws.com/".data ++ (P ++ tl) =
        ['/', '/'] ++ ("s3.amazonaws.com".data ++ ('/' :: (P ++ tl))) from rfl]
    simp only [splitNetlocL]
    rw [if_pos (isPre_refl_append ['/', '/'] _)]
    rw [show ((['/', '/'] : List Char) ++
        ("s3.amazonaws.com".data ++ ('/' :: (P ++ tl)))).drop 2 =
        "s3.amazonaws.com".data ++ ('/' :: (P ++ tl)) from rfl]
    rw [takeWhile_append_all hndS _, takeWhile_cons_neg (by decide)]
    rw [dropWhile_append_all hndS _, dropWhile_cons_neg (by decide)]
    simp
  have hP_hash : ∀ c ∈ P, (decide (c ≠ '#')) = true := fun c hc => by
    simp [(hPfacts c hc).2.2.1]
  have hP_q : ∀ c ∈ P, (decide (c ≠ '?')) = true := fun c hc => by
    simp [(hPfacts c hc).2.1]
  have hnq : ((('/' :: (P ++ tl)).takeWhile (fun c => c ≠ '#')).takeWhile
      (fun c => c ≠ '?')) = '/' :: P := by
    rcases htail' with h | ⟨t, h⟩ | ⟨t, h⟩
    · rw [h, List.append_nil]
      rw [takeWhile_cons_pos (by decide), takeWhile_all hP_hash]
      rw [takeWhile_cons_pos (by decide), takeWhile_all hP_q]
    · rw [h]
      have e1 : (('?' :: t).takeWhile (fun c => c ≠ '#')) =
          '?' :: t.takeWhile (fun c => c ≠ '#') := takeWhile_cons_pos (by decide)
      rw [takeWhile_cons_pos (by decide), takeWhile_append_all hP_hash, e1]
      have e2 : (('?' :: t.takeWhile (fun c => c ≠ '#')).takeWhile
          (fun c => c ≠ '?')) = [] := takeWhile_cons_neg (by decide)
      rw [takeWhile_cons_pos (by decide), takeWhile_append_all hP_q, e2]
      simp
    · rw [h]
      have e1 : (('#' :: t).takeWhile (fun c => c ≠ '#')) = [] :=
        takeWhile_cons_neg (by decide)
      rw [takeWhile_cons_pos (by decide), takeWhile_append_all hP_hash, e1]
      rw [List.append_nil]
      rw [takeWhile_cons_pos (by decide), takeWhile_all hP_q]
  simp only [urlparsePathL, hstage1, hsch, hnl]
  rw [hnq]
  rw [if_neg ?hcond]
  case hcond =>
    intro hcontr
    rcases List.mem_cons.mp hcontr.2 with h | h
    · exact absurd h (by decide)
    · exact absurd rfl (hPfacts ';' h).2.2.2

/-- Path-style extraction with a key: on `https://s3.amazonaws.com/B/K`
followed by a discarded query/fragment suffix, the resolver returns
`(B, K)`, provided the payload is URL-plain, `B` is non-empty and
slash-free, and `.s3.` occurs nowhere (so the path-style branch is
taken). -/
lemma extract_ps_pair (B K : String) (tail : List Char)
    (hBne : B ≠ "") (hBs : strContainsSub B "/" = false)
    (hB : B.data.all plainChar = true) (hK : K.data.all plainChar = true)
    (ht : tail = [] ∨ (∃ t, tail = '?' :: t) ∨ (∃ t, tail = '#' :: t))
    (hs3B : strContainsSub B ".s3." = false)
    (hs3K : containsSub ".s3.".data (K.data ++ tail) = false) :
    extract_bucket_and_key
        ⟨"https://s3.amazonaws.com/".data ++ (B.data ++ '/' :: (K.data ++ tail))⟩
      = (B, K) := by
  set L := "https://s3.amazonaws.com/".data ++ (B.data ++ '/' :: (K.data ++ tail)) with hL
  have hbranch : containsSub ".s3.".data L = false := by
    rw [hL]
    rw [show "https://s3.amazonaws.com/".data ++ (B.data ++ '/' :: (K.data ++ tail)) =
        "https:".data ++ '/' :: ([] ++ '/' :: ("s3.amazonaws.com".data ++ '/' ::
          (B.data ++ '/' :: (K.data ++ tail)))) from rfl]
    rw [containsSub_split _ '/' (by decide), containsSub_split _ '/' (by decide),
      containsSub_split _ '/' (by decide), containsSub_split _ '/' (by decide)]
    rw [show containsSub ".s3.".data "https:".data = false from by decide,
      show containsSub ".s3.".data ([] : List Char) = false from by decide,
      show containsSub ".s3.".data "s3.amazonaws.com".data = false from by decide,
      show containsSub ".s3.".data B.data = false from hs3B, hs3K]
    rfl
  have hall : (B.data ++ '/' :: K.data).all (fun c => plainChar c || c = '/') = true := by
    rw [List.all_append, List.all_cons]
    simp only [all_or_left hB, all_or_left hK, Bool.and_true, Bool.true_and]
    decide
  have hpath : urlparsePathL L = '/' :: (B.data ++ '/' :: K.data) := by
    rw [hL]
    have hrearr : "https://s3.amazonaws.com/".data ++ (B.data ++ '/' :: (K.data ++ tail)) =
        "https://s3.amazonaws.com/".data ++ ((B.data ++ '/' :: K.data) ++ tail) := by
      simp [List.append_assoc]
    rw [hrearr]
    exact ps_path_core (B.data ++ '/' :: K.data) tail hall ht
  have hbranchL : containsSub ['.', 's', '3', '.'] L = false := hbranch
  simp only [extract_bucket_and_key, data_mk, hbranchL, Bool.false_eq_true, if_false]
  rw [urlparse_path_data, data_mk, hpath]
  obtain ⟨b0, B', hB0⟩ : ∃ b0 B', B.data = b0 :: B' := by
    cases hq : B.data with
    | nil => exact absurd hq (str_ne_empty hBne)
    | cons x xs => exact ⟨x, xs, rfl⟩
  have hBmem := not_slash_of_strContains hBs
  have hb0 : b0 ≠ '/' := by
    rw [hB0] at hBmem
    simp only [List.mem_cons, not_or] at hBmem
    exact fun he => hBmem.1 he.symm
  have hdw1 : ('/' :: (B.data ++ '/' :: K.data)).dropWhile (fun c => c = '/') =
      B.data ++ '/' :: K.data := by
    rw [dropWhile_cons_pos (by simp), hB0, List.cons_append]
    exact dropWhile_cons_neg (by simp [hb0])
  rw [hdw1]
  have hBall : ∀ c ∈ B.data, (decide (c ≠ '/')) = true := by
    intro c hc
    simp only [decide_eq_true_eq]
    exact fun he => hBmem (he ▸ hc)
  have hdw2 : (B.data ++ '/' :: K.data).dropWhile (fun c => c ≠ '/') = '/' :: K.data := by
    rw [dropWhile_append_all hBall, dropWhile_cons_neg (by simp)]
  have htw : (B.data ++ '/' :: K.data).takeWhile (fun c => c ≠ '/') = B.data := by
    rw [takeWhile_append_all hBall, takeWhile_cons_neg (by simp)]
    simp
  simp only [splitOnce, hdw2, htw]
  simp

/-- Path-style extraction without a key segment: on
`https://s3.amazonaws.com/B` followed by a discarded query/fragment
suffix, the resolver returns `(B, "")`. -/
lemma extract_ps_nokey (B : String) (tail : List Char)
    (hBne : B ≠ "") (hBs : strContainsSub B "/" = false)
    (hB : B.data.all plainChar = true)
    (ht : tail = [] ∨ (∃ t, tail = '?' :: t) ∨ (∃ t, tail = '#' :: t))
    (hs3 : containsSub ".s3.".data (B.data ++ tail) = false) :
    extract_bucket_and_key ⟨"https://s3.amazonaws.com/".data ++ (B.data ++ tail)⟩
      = (B, "") := by
  set L := "https://s3.amazonaws.com/".data ++ (B.data ++ tail) with hL
  have hbranch : containsSub ".s3.".data L = false := by
    rw [hL]
    rw [show "https://s3.amazonaws.com/".data ++ (B.data ++ tail) =
        "https:".data ++ '/' :: ([] ++ '/' :: ("s3.amazonaws.com".data ++ '/' ::
          (B.data ++ tail))) from rfl]
    rw [containsSub_split _ '/' (by decide), containsSub_split _ '/' (by decide),
      containsSub_split _ '/' (by decide)]
    rw [show containsSub ".s3.".data "https:".data = false from by decide,
      show containsSub ".s3.".data ([] : List Char) = false from by decide,
      show containsSub ".s3.".data "s3.amazonaws.com".data = false from by decide, hs3]
    rfl
  have hpath : urlparsePathL L = '/' :: B.data := by
    rw [hL]
    exact ps_path_core B.data tail (all_or_left hB) ht
  have hbranchL : containsSub ['.', 's', '3', '.'] L = false := hbranch
  simp only [extract_bucket_and_key, data_mk, hbranchL, Bool.false_eq_true, if_false]
  rw [urlparse_path_data, data_mk, hpath]
  obtain ⟨b0, B', hB0⟩ : ∃ b0 B', B.data = b0 :: B' := by
    cases hq : B.data with
    | nil => exact absurd hq (str_ne_empty hBne)
    | cons x xs => exact ⟨x, xs, rfl⟩
  have hBmem := not_slash_of_strContains hBs
  have hb0 : b0 ≠ '/' := by
    rw [hB0] at hBmem
    simp only [List.mem_cons, not_or] at hBmem
    exact fun he => hBmem.1 he.symm
  have hdw1 : ('/' :: B.data).dropWhile (fun c => c = '/') = B.data := by
    rw [dropWhile_cons_pos (by simp), hB0]
    exact dropWhile_cons_neg (by simp [hb0])
  rw [hdw1]
  have hBall : ∀ c ∈ B.data, (decide (c ≠ '/')) = true := by
    intro c hc
    simp only [decide_eq_true_eq]
    exact fun he => hBmem (he ▸ hc)
  have hdw2 : B.data.dropWhile (fun c => c ≠ '/') = [] := dropWhile_all hBall
  simp only [splitOnce, hdw2]
  simp

/-- Claim C3 (amended): for every non-empty slash-free URL-plain bucket
name `B` and URL-plain key `K`, with `.s3.` occurring in neither (so the
URL stays on the path-style branch — dotted names such as `my.s3.bucket`
are excluded), the path-style URL `https://s3.amazonaws.com/B/K` resolves
to `(B, K)`, and without a key segment `https://s3.amazonaws.com/B`
resolves to `(B, "")`. -/
theorem c3_path_roundtrip :
    (∀ B K : String, B ≠ "" → strContainsSub B "/" = false →
      B.data.all plainChar = true → K.data.all plainChar = true →
      strContainsSub B ".s3." = false → strContainsSub K ".s3." = false →
      extract_bucket_and_key ("https://s3.amazonaws.com/" ++ B ++ "/" ++ K) = (B, K))
    ∧ (∀ B : String, B ≠ "" → strContainsSub B "/" = false →
      B.data.all plainChar = true → strContainsSub B ".s3." = false →
      extract_bucket_and_key ("https://s3.amazonaws.com/" ++ B) = (B, "")) := by
  constructor
  · intro B K hBne hBs hB hK hs3B hs3K
    have hstr : "https://s3.amazonaws.com/" ++ B ++ "/" ++ K =
        ⟨"https://s3.amazonaws.com/".data ++ (B.data ++ '/' :: (K.data ++ []))⟩ := by
      apply str_ext
      simp [str_data_append, show ("/".data : List Char) = ['/'] from rfl]
    rw [hstr]
    exact extract_ps_pair B K [] hBne hBs hB hK (Or.inl rfl) hs3B
      (by rw [List.append_nil]; exact hs3K)
  · intro B hBne hBs hB hs3B
    have hstr : "https://s3.amazonaws.com/" ++ B =
        ⟨"https://s3.amazonaws.com/".data ++ (B.data ++ [])⟩ := by
      apply str_ext
      simp [str_data_append]
    rw [hstr]
    exact extract_ps_nokey B [] hBne hBs hB (Or.inl rfl)
      (by rw [List.append_nil]; exact hs3B)

/-- Witness for C3 at the spec's examples. -/
theorem c3_witness :
    extract_bucket_and_key ("https://s3.amazonaws.com/" ++ "my-bucket" ++ "/" ++
        "folder/file.txt") = ("my-bucket", "folder/file.txt")
    ∧ extract_bucket_and_key ("https://s3.amazonaws.com/" ++ "my-bucket") =
        ("my-bucket", "") :=
  ⟨c3_path_roundtrip.1 "my-bucket" "folder/file.txt" (by decide) (by decide)
      (by decide) (by decide) (by decide) (by decide),
   c3_path_roundtrip.2 "my-bucket" (by decide) (by decide) (by decide) (by decide)⟩

/-- Claim C10: query/fragment asymmetry of the two branches.  First, a
path-style resolution depends only on the parsed path component, so a
`?query` or `#fragment` never reaches bucket or key; concretely a
path-style URL with a query resolves to `(B, K)` with the query excluded.
Second, the virtual-hosted branch uses the raw remainder after
`.amazonaws.com/`, so the same query stays inside the returned key
verbatim. -/
theorem c10_query_fragment_asymmetry :
    (∀ u1 u2 : String, strContainsSub u1 ".s3." = false →
        strContainsSub u2 ".s3." = false →
        urlparse_path u1 = urlparse_path u2 →
        extract_bucket_and_key u1 = extract_bucket_and_key u2)
    ∧ (∀ B K Q : String, B ≠ "" → strContainsSub B "/" = false →
        B.data.all plainChar = true → K.data.all plainChar = true →
        strContainsSub B ".s3." = false → strContainsSub K ".s3." = false →
        strContainsSub Q ".s3." = false →
        extract_bucket_and_key ("https://s3.amazonaws.com/" ++ B ++ "/" ++ K ++ "?" ++ Q)
          = (B, K))
    ∧ (∀ B R K Q : String,
        strContainsSub ("https://" ++ B ++ ".s3") ".s3." = false →
        strContainsSub B "/" = false →
        strContainsSub ("https://" ++ B ++ ".s3." ++ R ++ ".amazonaws.com")
          ".amazonaws.com/" = false →
        strContainsSub K ".amazonaws.com/" = false →
        strContainsSub Q ".amazonaws.com/" = false →
        extract_bucket_and_key
            ("https://" ++ B ++ ".s3." ++ R ++ ".amazonaws.com/" ++ K ++ "?" ++ Q)
          = (B, K ++ "?" ++ Q)) := by
  refine ⟨?_, ?_, ?_⟩
  · intro u1 u2 h1 h2 hp
    have h1' : containsSub ['.', 's', '3', '.'] u1.data = false := h1
    have h2' : containsSub ['.', 's', '3', '.'] u2.data = false := h2
    simp only [extract_bucket_and_key, h1', h2', Bool.false_eq_true, if_false, hp]
  · intro B K Q hBne hBs hB hK hs3B hs3K hs3Q
    have hstr : "https://s3.amazonaws.com/" ++ B ++ "/" ++ K ++ "?" ++ Q =
        ⟨"https://s3.amazonaws.com/".data ++
          (B.data ++ '/' :: (K.data ++ ('?' :: Q.data)))⟩ := by
      apply str_ext
      simp [str_data_append, show ("/".data : List Char) = ['/'] from rfl,
        show ("?".data : List Char) = ['?'] from rfl]
    rw [hstr]
    refine extract_ps_pair B K ('?' :: Q.data) hBne hBs hB hK
      (Or.inr (Or.inl ⟨Q.data, rfl⟩)) hs3B ?_
    rw [containsSub_split _ '?' (by decide),
      show containsSub ".s3.".data K.data = false from hs3K,
      show containsSub ".s3.".data Q.data = false from hs3Q]
    rfl
  · intro B R K Q hB1 hB2 hR hK hQ
    have hstr : "https://" ++ B ++ ".s3." ++ R ++ ".amazonaws.com/" ++ K ++ "?" ++ Q =
        "https://" ++ B ++ ".s3." ++ R ++ ".amazonaws.com/" ++ (K ++ "?" ++ Q) := by
      apply str_ext
      simp [str_data_append, List.append_assoc]
    rw [hstr]
    refine extract_vh B R (K ++ "?" ++ Q) hB1 hB2 hR ?_
    show containsSub ".amazonaws.com/".data (K ++ "?" ++ Q).data = false
    have hd : (K ++ "?" ++ Q).data = K.data ++ '?' :: Q.data := by
      rw [str_data_append, str_data_append]
      simp [show ("?".data : List Char) = ['?'] from rfl]
    rw [hd, containsSub_split _ '?' (by decide),
      show containsSub ".amazonaws.com/".data K.data = false from hK,
      show containsSub ".amazonaws.com/".data Q.data = false from hQ]
    rfl

/-- Witness for C10: two path-style URLs differing only in query versus
fragment resolve identically; a path-style query is excluded from the
key; the same query on a virtual-hosted URL stays in the key verbatim. -/
theorem c10_witness :
    extract_bucket_and_key "https://s3.amazonaws.com/b/k?x" =
      extract_bucket_and_key "https://s3.amazonaws.com/b/k#y"
    ∧ extract_bucket_and_key ("https://s3.amazonaws.com/" ++ "b" ++ "/" ++ "k" ++ "?" ++
        "x=1") = ("b", "k")
    ∧ extract_bucket_and_key ("https://" ++ "b" ++ ".s3." ++ "r" ++ ".amazonaws.com/" ++
        "k" ++ "?" ++ "x=1") = ("b", "k" ++ "?" ++ "x=1") :=
  ⟨c10_query_fragment_asymmetry.1 "https://s3.amazonaws.com/b/k?x"
      "https://s3.amazonaws.com/b/k#y" (by decide) (by decide) (by decide),
   c10_query_fragment_asymmetry.2.1 "b" "k" "x=1" (by decide) (by decide) (by decide)
      (by decide) (by decide) (by decide) (by decide),
   c10_query_fragment_asymmetry.2.2 "b" "r" "k" "x=1" (by decide) (by decide)
      (by decide) (by decide) (by decide)⟩

end S3Debug
